import Mathlib

/-!
Verification of the routing core of ThePuffProject/puff (package `puff`:
`router.go`, `node.go`, `utils.go`).  The Go code is shallowly embedded:
mutable tree updates become functional rebuilding, Go panics become
`Except.error`, and the Go `map[string]*Route` becomes an association
list with Go-map lookup/overwrite semantics.  `nil` maps are modelled by
`Option` (Go distinguishes nil maps from empty ones).  Pointer identity
(`parent` back-references, `r == subRouter`) is not representable in a
value model and is noted where it matters.
-/

/-- Go `nodeType` (node.go).  `nodePrefixKind` renders Go's `nodePrefix`. -/
inductive NodeType : Type where
  | nodePrefixKind : NodeType
  | nodePathParam : NodeType
  | nodeAny : NodeType
deriving DecidableEq, Repr

/-- A registered route (router.go `Route`, restricted to the fields the routing
core reads: `Path`, `Protocol`; the opaque handler is represented by an id). -/
structure Route : Type where
  path : String
  protocol : String
  handlerId : Nat
deriving DecidableEq, Repr

/-- Association-list rendering of Go's `map[string]*Route`. -/
abbrev RouteMap : Type := List (String × Route)

/-- Go map read `m[k]`: the unique binding of `k`, if present. -/
def lookupR : RouteMap → String → Option Route
  | [], _ => none
  | (k', v) :: rest, k => if k' == k then some v else lookupR rest k

/-- Go map write `m[k] = v`: replace the binding of `k`, else append it. -/
def insertR : RouteMap → String → Route → RouteMap
  | [], k, v => [(k, v)]
  | (k', v') :: rest, k, v =>
      if k' == k then (k, v) :: rest else (k', v') :: insertR rest k v

/-- The effect of Go `maps.Copy(dst, src)` on `dst`'s entries. -/
def copyList (d : RouteMap) (s : RouteMap) : RouteMap :=
  s.foldl (fun acc kv => insertR acc kv.1 kv.2) d

/-- Go `maps.Copy(dst, src)` with nil-map semantics: copying a non-empty
source into a nil destination map panics; an empty or nil source is a no-op. -/
def mapsCopy (dst src : Option RouteMap) : Except String (Option RouteMap) :=
  match src with
  | none => .ok dst
  | some s =>
      match s with
      | [] => .ok dst
      | _ :: _ =>
          match dst with
          | none => .error "assignment to entry in nil map"
          | some d => .ok (some (copyList d s))

/-- Go `node` (node.go).  `pre` renders the Go field `prefix` (that Go name is
not available here); the `parent` back-reference and the unused `param` field
are omitted from the value model. -/
inductive Node : Type where
  | mk (pre : String) (routes : Option RouteMap) (allMethods : List String)
       (children : List Node) (type_ : NodeType) : Node

/-- The node's segment text (Go field `prefix`). -/
def Node.pre : Node → String
  | .mk p _ _ _ _ => p

/-- The node's method map (Go field `routes`). -/
def Node.routes : Node → Option RouteMap
  | .mk _ r _ _ _ => r

/-- The node's cached method list (Go field `allMethods`). -/
def Node.allMethods : Node → List String
  | .mk _ _ a _ _ => a

/-- The node's ordered children (Go field `children`). -/
def Node.children : Node → List Node
  | .mk _ _ _ c _ => c

/-- The node's kind (Go field `type_`). -/
def Node.type_ : Node → NodeType
  | .mk _ _ _ _ t => t

/-- Functional update of `children` (Go mutates the field in place). -/
def Node.withChildren : Node → List Node → Node
  | .mk p r a _ t, cs => .mk p r a cs t

/-- First character of a string; Go `s[0]` guarded by `len(s) > 0`. -/
def headChar (s : String) : Option Char := s.toList.head?

/-- Go `strings.HasPrefix(s, pre)`. -/
def goHasPrefix (s pre : String) : Bool := List.isPrefixOf pre.toList s.toList

/-- Go `isParam` (node.go): text bounded by `{` and `}`. -/
def isParam (pre : String) : Bool :=
  match pre.toList with
  | [] => false
  | c :: rest => c == '{' && (c :: rest).getLast (by simp) == '}'

/-- Go `determineNodeType` (node.go). -/
def determineNodeType (pre : String) : NodeType :=
  if headChar pre == some '*' then .nodeAny
  else if isParam pre then .nodePathParam
  else .nodePrefixKind

/-- Drop leading and trailing `c` from a character list
(Go `strings.Trim(s, "/")` for a one-character cutset). -/
def trimChar (c : Char) (s : List Char) : List Char :=
  ((s.dropWhile (· == c)).reverse.dropWhile (· == c)).reverse

/-- Go `strings.Split(s, "/")` on character lists: split at every `c`,
keeping empty groups (`Split("", ...)` yields one empty group). -/
def splitOnChar (c : Char) : List Char → List (List Char)
  | [] => [[]]
  | x :: xs =>
      match splitOnChar c xs with
      | [] => [[]]
      | g :: gs => if x == c then [] :: g :: gs else (x :: g) :: gs

/-- Go `segmentPath` (utils.go): trim `/` from both ends, return no segments
for the empty result, else split on `/` (keeping empty groups). -/
def segmentPath (path : String) : List String :=
  let t := trimChar '/' path.toList
  if t.isEmpty then [] else (splitOnChar '/' t).map (fun l => String.mk l)

/-- Go `findChild` (node.go): first child matching both segment text and kind. -/
def findChild (n : Node) (seg : String) (t : NodeType) : Option Node :=
  n.children.find? (fun c => c.pre == seg && c.type_ == t)

/-- The node Go's `addChild` constructs (zero-value `routes`, kind derived
from the full stored text). -/
def newChildNode (pre : String) : Node :=
  .mk pre none [] [] (determineNodeType pre)

/-- Go `addChild` (node.go): reject an empty text or a duplicate of any
existing child's text (a panic, modelled as `Except.error`), else produce the
new child.  Go appends the child to `n.children` itself; in this functional
model the caller performs the append. -/
def addChild (n : Node) (pre : String) : Except String Node :=
  if pre = "" then .error "prefix cannot be empty when adding a child node"
  else if n.children.any (fun c => c.pre == pre) then
    .error ("child with prefix '" ++ pre ++ "' already exists under parent '" ++ n.pre ++ "'")
  else .ok (newChildNode pre)

/-- Modelled from the spec: `isMethodTaken` is called by `registerRoute` and
`addRouteToNode` (router.go) but its definition is not in the repository
snapshot.  Per data-model invariant 2 ("A Node's method map has at most one
Route per method; a second registration for the same method at the same node
is a configuration error") it reports whether the method is already bound at
the node; the `path` argument is not consulted. -/
def isMethodTaken (n : Node) (method : String) (_path : String) : Bool :=
  match n.routes with
  | none => false
  | some m => (lookupR m method).isSome

/-- The `Route` value Go's `addRouteToNode` constructs (`Description` comes
from `runtime.Caller` and is opaque; the handler is an id). -/
def mkRoute (method path : String) (hid : Nat) : Route :=
  { path := path, protocol := method, handlerId := hid }

/-- Go `addRouteToNode` (router.go): panic on a method conflict, else bind the
new route in the (created-if-nil) method map and append to the cached method
list.  The companion append to `r.Routes` is performed by the caller here. -/
def addRouteToNode (method path : String) (hid : Nat) (n : Node) : Except String Node :=
  if isMethodTaken n method path then
    .error ("cannot add route with prefix " ++ path ++
      " due to method conflict. Method " ++ method ++ " is already being used.")
  else
    match n with
    | .mk p r a cs t =>
        .ok (.mk p (some (insertR (r.getD []) method (mkRoute method path hid)))
          (a ++ [method]) cs t)

/-- Children chain Go's `insertNode` builds below its first segment; an empty
segment text panics inside `addChild`. -/
def buildTail : List String → Except String (List Node)
  | [] => .ok []
  | t :: rest =>
      if t = "" then .error "prefix cannot be empty when adding a child node"
      else do
        let cs ← buildTail rest
        .ok [Node.mk t none [] cs (determineNodeType t)]

/-- Go `insertNode` (node.go): nil for a path with no segments, else a linear
chain; the root's kind is the struct zero value, not `determineNodeType`. -/
def insertNode (p : String) : Except String (Option Node) :=
  match segmentPath p with
  | [] => .ok none
  | s :: rest => do
      let cs ← buildTail rest
      .ok (some (Node.mk s none [] cs NodeType.nodePrefixKind))

/-- Go `Router` (router.go), restricted to the fields the routing core reads.
`routers` keeps only the mounted routers' names (Go stores pointers, used for
documentation traversal only); `parent` keeps the parent's name (the model
only tests attachment). -/
structure Router : Type where
  name : String
  path : String
  rootNode : Option Node
  routes : List Route
  routers : List String
  parent : Option String

/-- Go `NewRouter` (router.go): the root node is `insertNode(name)`. -/
def NewRouter (name : String) : Except String Router := do
  let root ← insertNode name
  .ok { name := name, path := "", rootNode := root, routes := [],
        routers := [], parent := none }

/-- Router after a successful registration: updated tree plus the
`r.Routes = append(r.Routes, newRoute)` performed in Go's `addRouteToNode`. -/
def routerUpd (r : Router) (root' : Node) (rt : Route) : Router :=
  { r with rootNode := some root', routes := r.routes ++ [rt] }

/-- Scan for Go `findChild`'s first hit among the children (same text and
kind test as `findChild`) and rebuild the child list around the descent `f`
into the hit; `none` when no child matches. -/
def regChildren (f : Node → Except String Node) (s : String) :
    List Node → Option (Except String (List Node))
  | [] => none
  | c :: cs =>
      if c.pre == "/" ++ s && c.type_ == determineNodeType s then
        some ((f c).map (· :: cs))
      else
        (regChildren f s cs).map (fun r => r.map (c :: ·))

/-- The per-segment loop of Go `registerRoute` (router.go lines 81-89):
`findChild(segment_w_slash, determineNodeType(segment))`, descend on a hit,
else `addChild(segment_w_slash)` and descend into the new child; at the end
`addRouteToNode`. -/
def registerSegs (method path : String) (hid : Nat) : Node → List String → Except String Node
  | n, [] => addRouteToNode method path hid n
  | n, s :: rest =>
      match regChildren (fun c => registerSegs method path hid c rest) s n.children with
      | some res => res.map (fun cs' => n.withChildren cs')
      | none => do
          let c ← addChild n ("/" ++ s)
          let c' ← registerSegs method path hid c rest
          .ok (n.withChildren (n.children ++ [c']))

/-- Go `registerRoute` (router.go lines 52-94).  The first branch handles the
empty path and single-segment paths without a leading slash (note: when
`findChild` hits, Go leaves `current` at the root, so the route is bound at
the root); the second branch panics on multi-segment paths without a leading
slash; otherwise the tree is extended segment by segment.  A nil root node
would make Go dereference nil inside the branch bodies. -/
def registerRoute (r : Router) (method path : String) (hid : Nat) :
    Except String (Router × Route) :=
  let segments := segmentPath path
  let rt := mkRoute method path hid
  if (path = "" ∨ headChar path ≠ some '/') ∧ segments.length < 2 then
    match r.rootNode with
    | none => .error "runtime error: invalid memory address or nil pointer dereference"
    | some root =>
        if path = "" ∧ isMethodTaken root method path = false then
          (addRouteToNode method path hid root).map (fun root' => (routerUpd r root' rt, rt))
        else
          match findChild root path (determineNodeType path) with
          | some _ =>
              (addRouteToNode method path hid root).map (fun root' => (routerUpd r root' rt, rt))
          | none => do
              let c ← addChild root path
              let c' ← addRouteToNode method path hid c
              .ok (routerUpd r (root.withChildren (root.children ++ [c'])) rt, rt)
  else if headChar path ≠ some '/' ∧ segments.length > 0 then
    .error ("Improperly formatted route with method " ++ method ++ " and path " ++ path)
  else
    match r.rootNode with
    | none => .error "runtime error: invalid memory address or nil pointer dereference"
    | some root =>
        (registerSegs method path hid root segments).map (fun root' => (routerUpd r root' rt, rt))

/-- Outcome of one tree walk of Go `ServeHTTP` (router.go lines 273-332), up
to route selection: a routing miss (`http.NotFound`), a method mismatch
(`ErrMethodNotAllowed`), or the selected route with the captured parameter
values in walk order.  Input binding, websockets and the handler call happen
after selection and are outside the model. -/
inductive ServeResult : Type where
  | notFound : ServeResult
  | methodNotAllowed : ServeResult
  | matched (rt : Route) (params : List String) : ServeResult
deriving DecidableEq, Repr

/-- The three per-child tests of the dispatch loop (router.go lines 285-303),
in source order: exact text match, path-parameter kind, Go `strings.HasPrefix`
on the slashed or raw segment.  `some cap` means the child is taken, with
`cap = true` exactly when the parameter branch fired (the raw segment is
captured). -/
def matchStep (seg : String) (c : Node) : Option Bool :=
  if c.pre == "/" ++ seg then some false
  else if c.type_ == NodeType.nodePathParam then some true
  else if goHasPrefix ("/" ++ seg) c.pre || goHasPrefix seg c.pre then some false
  else none

/-- First child of the list taken by the dispatch loop, with its capture flag:
the children are scanned in insertion order and the scan stops at the first
hit (`break`). -/
def firstMatch (seg : String) : List Node → Option (Node × Bool)
  | [] => none
  | c :: cs =>
      match matchStep seg c with
      | some cap => some (c, cap)
      | none => firstMatch seg cs

/-- The walk of Go `ServeHTTP`: consume the segments, descending through
`firstMatch` and appending captured parameters; afterwards a nil method map is
a miss, a map without the method is a method mismatch, else the bound route is
selected. -/
def serveWalk (method : String) : Node → List String → List String → ServeResult
  | n, [], params =>
      match n.routes with
      | none => .notFound
      | some m =>
          match lookupR m method with
          | none => .methodNotAllowed
          | some rt => .matched rt params
  | n, s :: rest, params =>
      match firstMatch s n.children with
      | none => .notFound
      | some (c, cap) =>
          serveWalk method c rest (if cap then params ++ [s] else params)

/-- The node the walk lands on, ignoring captures (used to state where a 405
originates). -/
def walkTo : Node → List String → Option Node
  | n, [] => some n
  | n, s :: rest =>
      match firstMatch s n.children with
      | none => none
      | some (c, _) => walkTo c rest

/-- Go `ServeHTTP` from the router: tokenize the URL path with `segmentPath`
and walk from the root with no captured parameters.  `none` models the nil
dereference a nil root node would cause. -/
def serve (r : Router) (method path : String) : Option ServeResult :=
  match r.rootNode with
  | none => none
  | some root => some (serveWalk method root (segmentPath path) [])

/-- An HTTP response as far as the routing core shapes one: status code and
headers (bodies are fixed texts, not consulted by any claim). -/
structure HttpResponse : Type where
  status : Nat
  headers : List (String × String)
deriving DecidableEq, Repr

/-- Go `ErrMethodNotAllowed` (node.go lines 114-122): status 405 with a JSON
content type and a fixed JSON error body; no other header is written. -/
def errMethodNotAllowedResponse : HttpResponse :=
  { status := 405, headers := [("Content-Type", "application/json")] }

/-- Go `http.NotFound`: status 404 with the standard library's headers. -/
def notFoundResponse : HttpResponse :=
  { status := 404,
    headers := [("Content-Type", "text/plain; charset=utf-8"),
                ("X-Content-Type-Options", "nosniff")] }

/-- The response `ServeHTTP` writes for each non-selected outcome (a selected
route proceeds to binding and the handler, producing no fixed response). -/
def dispatchResponse : ServeResult → Option HttpResponse
  | .notFound => some notFoundResponse
  | .methodNotAllowed => some errMethodNotAllowedResponse
  | .matched _ _ => none

/-- Modelled from the spec: `newNode(segment_w_slash, current)` is called by
`Mount` (router.go line 229) but its definition is not in the repository
snapshot.  Following §4.2/§4.3 (create a child classified by kind) and the
sibling constructor `addChild`, it creates a node with the given text, kind
from `determineNodeType`, no children and a zero-value (nil) method map. -/
def newNode (pre : String) : Node :=
  .mk pre none [] [] (determineNodeType pre)

/-- The splice at the mount-point node (router.go lines 236-242): append the
sub-router root's children (moved, their parent pointer rewritten in Go),
`maps.Copy` the root method map over the mount point's, and append the cached
method lists.  In Go the children move before `maps.Copy` can panic; the
`Except` model is atomic. -/
def spliceAt (subRoot : Node) (cur : Node) : Except String Node :=
  match cur with
  | .mk p r a cs t => do
      let r' ← mapsCopy r subRoot.routes
      .ok (.mk p r' (a ++ subRoot.allMethods) (cs ++ subRoot.children) t)

/-- Scan for the mount walk's first text hit among the children (text only,
no kind test) and rebuild the child list around the descent `f` into the
hit. -/
def mountChildren (f : Node → Except String Node) (s : String) :
    List Node → Option (Except String (List Node))
  | [] => none
  | c :: cs =>
      if c.pre == "/" ++ s then
        some ((f c).map (· :: cs))
      else
        (mountChildren f s cs).map (fun r => r.map (c :: ·))

/-- The mount-path walk of Go `Mount` (router.go lines 217-233): per segment,
take the first child whose text equals the slashed segment (no kind test),
else append a `newNode` and descend; splice at the final node. -/
def mountWalk (subRoot : Node) : List String → Node → Except String Node
  | [], cur => spliceAt subRoot cur
  | s :: rest, cur =>
      match mountChildren (fun c => mountWalk subRoot rest c) s cur.children with
      | some res => res.map (fun cs' => cur.withChildren cs')
      | none => do
          let c' ← mountWalk subRoot rest (newNode ("/" ++ s))
          .ok (cur.withChildren (cur.children ++ [c']))

/-- Go `Mount` (router.go lines 183-246).  The pointer-identity checks
`r == subRouter` and `subRouter == nil` are not representable in the value
model and are omitted; the claims exercised here do not involve them.  The
remaining checks, the `segments[0]` index panic for an all-slash mount path,
and the nil-root dereferences are modelled in Go's order. -/
def Mount (r : Router) (mountPath : String) (sub : Router) :
    Except String (Router × Router) :=
  if mountPath = "" ∨ headChar mountPath ≠ some '/' then
    .error ("mountPath '" ++ mountPath ++ "' for router " ++ sub.name ++
      " is invalid. Paths must begin with '/' and may not be empty")
  else if sub.parent.isSome then
    .error "provided router is already attached. A router may only be attached to one parent"
  else
    let sub1 : Router := { sub with path := mountPath, parent := some r.name }
    match segmentPath mountPath with
    | [] => .error "runtime error: index out of range [0] with length 0"
    | s0 :: restSegs =>
        match sub1.rootNode with
        | none => .error "runtime error: invalid memory address or nil pointer dereference"
        | some subRoot =>
            let subRoot1 :=
              match subRoot with
              | .mk _ r' a cs t => Node.mk s0 r' a cs t
            match r.rootNode with
            | none => .error "runtime error: invalid memory address or nil pointer dereference"
            | some rRoot => do
                let rRoot' ← mountWalk subRoot1 (s0 :: restSegs) rRoot
                .ok ({ r with rootNode := some rRoot', routers := r.routers ++ [sub1.name] },
                     { sub1 with rootNode := some subRoot1 })

/-- Whether an `Except` computation failed (a Go panic in this model). -/
def isErr {α : Type} : Except String α → Bool
  | .error _ => true
  | .ok _ => false

/-- The linear chain of nodes that a run of fresh `addChild` descents builds:
intermediate nodes carry no routes and a single child; the terminal node
carries the given method map and cached method list. -/
def chainN (R : Option RouteMap) (M : List String) : String → NodeType → List String → Node
  | pre, t, [] => .mk pre R M [] t
  | pre, t, s :: rest =>
      .mk pre none [] [chainN R M ("/" ++ s) (determineNodeType ("/" ++ s)) rest] t

/-- The per-node scan of `cleanReg`, mirroring `regChildren`'s scan: every
child scanned before the hit must fail all three dispatch tests for the
segment, and the walk continues with `f` at the hit. -/
def cleanChildren (f : Node → Bool) (s : String) : List Node → Bool
  | [] => true
  | c :: cs =>
      if c.pre == "/" ++ s && c.type_ == determineNodeType s then f c
      else (matchStep s c).isNone && cleanChildren f s cs

/-- Shadow-freedom of a registration walk with respect to dispatch: along the
walk of `registerSegs`, every child scanned before the child the registration
descends into (or before the appended fresh child) fails all three dispatch
tests for that segment. -/
def cleanReg : Node → List String → Bool
  | _, [] => true
  | n, s :: rest => cleanChildren (fun c => cleanReg c rest) s n.children

/-- The chain the mount walk creates below a fresh mount path, ending in the
splice of a sub-router root whose own method map is nil. -/
def mchain (subRoot : Node) : String → List String → Node
  | pre, [] => .mk pre none subRoot.allMethods subRoot.children (determineNodeType pre)
  | pre, s :: rest => .mk pre none [] [mchain subRoot ("/" ++ s) rest] (determineNodeType pre)

/-- Pairwise distinctness of a list of strings. -/
def nodupStrs (l : List String) : Bool := decide l.Nodup

/-- At every node of every tree in the list, the children's segment texts
are pairwise distinct. -/
def allNodup : List Node → Bool
  | [] => true
  | (Node.mk _ _ _ cs _) :: rest => (nodupStrs (cs.map Node.pre) && allNodup cs) && allNodup rest

/-- Invariant: at every node of the tree, the children's segment texts are
pairwise distinct. -/
def prefixesNodup (n : Node) : Bool :=
  nodupStrs (n.children.map Node.pre) && allNodup n.children

/-- `prefixesNodup` of a router's tree (a nil root has no tree). -/
def routerNodup (r : Router) : Bool :=
  match r.rootNode with
  | none => true
  | some root => prefixesNodup root

/-- The root node `NewRouter "a"` produces (`insertNode "a"`). -/
def rootA : Node := Node.mk "a" none [] [] NodeType.nodePrefixKind

/-- The fresh router `NewRouter "a"` produces (used to instantiate theorems
with hypotheses at concrete inputs). -/
def freshRouterA : Router :=
  { name := "a", path := "", rootNode := some rootA, routes := [],
    routers := [], parent := none }

/-- A one-route sub-router (`POST /u`), used to instantiate theorems at
concrete inputs. -/
def subRouterB : Router :=
  { name := "b"
    path := ""
    rootNode := some (Node.mk "b" none []
      [Node.mk "/u" (some [("POST", mkRoute "POST" "/u" 2)]) ["POST"] []
        NodeType.nodePrefixKind] NodeType.nodePrefixKind)
    routes := [mkRoute "POST" "/u" 2]
    routers := []
    parent := none }

@[simp] theorem Node.pre_mk (p r a cs t) : (Node.mk p r a cs t).pre = p := rfl

@[simp] theorem Node.routes_mk (p r a cs t) : (Node.mk p r a cs t).routes = r := rfl

@[simp] theorem Node.allMethods_mk (p r a cs t) : (Node.mk p r a cs t).allMethods = a := rfl

@[simp] theorem Node.children_mk (p r a cs t) : (Node.mk p r a cs t).children = cs := rfl

@[simp] theorem Node.type_mk (p r a cs t) : (Node.mk p r a cs t).type_ = t := rfl

@[simp] theorem Node.withChildren_mk (p r a cs t cs') :
    (Node.mk p r a cs t).withChildren cs' = Node.mk p r a cs' t := rfl

@[simp] theorem Node.pre_withChildren (n : Node) (cs : List Node) :
    (n.withChildren cs).pre = n.pre := by cases n; rfl

@[simp] theorem Node.type_withChildren (n : Node) (cs : List Node) :
    (n.withChildren cs).type_ = n.type_ := by cases n; rfl

@[simp] theorem Node.routes_withChildren (n : Node) (cs : List Node) :
    (n.withChildren cs).routes = n.routes := by cases n; rfl

@[simp] theorem Node.children_withChildren (n : Node) (cs : List Node) :
    (n.withChildren cs).children = cs := by cases n; rfl

@[simp] theorem isErr_error {α : Type} (e : String) : isErr (Except.error e : Except String α) = true := rfl

@[simp] theorem isErr_ok {α : Type} (a : α) : isErr (Except.ok a : Except String α) = false := rfl

@[simp] theorem isErr_map {α β : Type} (f : α → β) (x : Except String α) :
    isErr (x.map f) = isErr x := by cases x <;> rfl

theorem toList_append (a b : String) : (a ++ b).toList = a.toList ++ b.toList :=
  String.data_append a b

theorem toList_slash (s : String) : ("/" ++ s).toList = '/' :: s.toList := by
  rw [toList_append]; rfl

theorem slash_ne_empty (s : String) : ("/" ++ s) ≠ "" := by
  intro h
  have : ("/" ++ s).toList = ("" : String).toList := by rw [h]
  rw [toList_slash] at this
  simp at this

theorem determineNodeType_slash (s : String) :
    determineNodeType ("/" ++ s) = NodeType.nodePrefixKind := by
  unfold determineNodeType headChar isParam
  rw [toList_slash]
  simp

theorem lookupR_insertR_self (m : RouteMap) (k : String) (v : Route) :
    lookupR (insertR m k v) k = some v := by
  induction m with
  | nil => simp [insertR, lookupR]
  | cons kv rest ih =>
      obtain ⟨k', v'⟩ := kv
      by_cases h : k' = k
      · subst h; simp [insertR, lookupR]
      · simp [insertR, lookupR, h, ih]

theorem lookupR_insertR_ne (m : RouteMap) (k k' : String) (v : Route) (h : k' ≠ k) :
    lookupR (insertR m k' v) k = lookupR m k := by
  induction m with
  | nil => simp [insertR, lookupR, h]
  | cons kv rest ih =>
      obtain ⟨k₀, v₀⟩ := kv
      by_cases h0 : k₀ = k'
      · subst h0; simp [insertR, lookupR, h]
      · simp [insertR, lookupR, h0, ih]

theorem matchStep_exact (s : String) (c : Node) (h : c.pre = "/" ++ s) :
    matchStep s c = some false := by
  unfold matchStep
  rw [h]
  simp

theorem firstMatch_append_none (s : String) (l r : List Node)
    (h : ∀ c ∈ l, matchStep s c = none) :
    firstMatch s (l ++ r) = firstMatch s r := by
  induction l with
  | nil => rfl
  | cons c cs ih =>
      have hc : matchStep s c = none := h c (by simp)
      simp only [List.cons_append, firstMatch, hc]
      exact ih (fun d hd => h d (by simp [hd]))

theorem chainN_pre (R M pre t segs) : (chainN R M pre t segs).pre = pre := by
  cases segs <;> rfl

theorem registerSegs_pre_type (method path : String) (hid : Nat) (n n' : Node)
    (segs : List String) (h : registerSegs method path hid n segs = .ok n') :
    n'.pre = n.pre ∧ n'.type_ = n.type_ := by
  cases segs with
  | nil =>
      cases n with
      | mk p r a cs t =>
          simp only [registerSegs, addRouteToNode] at h
          split at h
          · simp at h
          · rw [Except.ok.injEq] at h
            subst h
            simp
  | cons s rest =>
      simp only [registerSegs] at h
      split at h
      · rename_i res heq
        cases res with
        | error e => simp [Except.map] at h
        | ok cs' =>
            simp only [Except.map, Except.ok.injEq] at h
            subst h
            simp
      · cases haC : addChild n ("/" ++ s) with
        | error e => rw [haC] at h; simp [bind, Except.bind] at h
        | ok c =>
            rw [haC] at h
            simp only [bind, Except.bind] at h
            cases hrs : registerSegs method path hid c rest with
            | error e =>
                rw [hrs] at h
                simp at h
            | ok c' =>
                rw [hrs] at h
                simp only [Except.ok.injEq] at h
                subst h
                simp

theorem serveWalk_chainN (method pre : String) (t : NodeType) (R : Option RouteMap)
    (M : List String) (segs params : List String) :
    serveWalk method (chainN R M pre t segs) segs params =
      (match R with
       | none => ServeResult.notFound
       | some m =>
           match lookupR m method with
           | none => ServeResult.methodNotAllowed
           | some rt => ServeResult.matched rt params) := by
  induction segs generalizing pre t params with
  | nil => cases R <;> simp [chainN, serveWalk]
  | cons s rest ih =>
      have hm : matchStep s (chainN R M ("/" ++ s) (determineNodeType ("/" ++ s)) rest)
          = some false :=
        matchStep_exact s _ (chainN_pre _ _ _ _ _)
      simp only [chainN, serveWalk, Node.children_mk, firstMatch, hm]
      exact ih _ _ _

theorem registerSegs_fresh (method path : String) (hid : Nat) (pre : String) (t : NodeType)
    (segs : List String) :
    registerSegs method path hid (Node.mk pre none [] [] t) segs =
      .ok (chainN (some [(method, mkRoute method path hid)]) [method] pre t segs) := by
  induction segs generalizing pre t with
  | nil => simp [registerSegs, addRouteToNode, isMethodTaken, chainN, insertR]
  | cons s rest ih =>
      simp only [registerSegs, Node.children_mk, regChildren]
      rw [addChild]
      simp only [slash_ne_empty, if_false, List.any_nil, Bool.false_eq_true, if_neg,
        newChildNode]
      simp [bind, Except.bind, ih, chainN]

theorem chainN_type (R M pre t segs) : (chainN R M pre t segs).type_ = t := by
  cases segs <;> rfl

theorem addChild_ok (n : Node) (pre : String) (c : Node)
    (h : addChild n pre = .ok c) : c = newChildNode pre := by
  unfold addChild at h
  split at h
  · simp at h
  · split at h
    · simp at h
    · rw [Except.ok.injEq] at h; exact h.symm

theorem registerSegs_second (m' p' : String) (h' : Nat) (R : RouteMap) (M : List String)
    (pre : String) (t : NodeType) (segs : List String)
    (hstat : ∀ s ∈ segs, determineNodeType s = NodeType.nodePrefixKind)
    (hfree : lookupR R m' = none) :
    registerSegs m' p' h' (chainN (some R) M pre t segs) segs =
      .ok (chainN (some (insertR R m' (mkRoute m' p' h'))) (M ++ [m']) pre t segs) := by
  induction segs generalizing pre t with
  | nil =>
      simp [chainN, registerSegs, addRouteToNode, isMethodTaken, hfree]
  | cons s rest ih =>
      have hs : determineNodeType s = NodeType.nodePrefixKind := hstat s (by simp)
      have hrest : ∀ x ∈ rest, determineNodeType x = NodeType.nodePrefixKind :=
        fun x hx => hstat x (by simp [hx])
      have hcond : ((chainN (some R) M ("/" ++ s) (determineNodeType ("/" ++ s)) rest).pre
            == "/" ++ s &&
          (chainN (some R) M ("/" ++ s) (determineNodeType ("/" ++ s)) rest).type_
            == determineNodeType s) = true := by
        rw [chainN_pre, chainN_type, determineNodeType_slash, hs]
        simp
      have ihx := ih ("/" ++ s) (determineNodeType ("/" ++ s)) hrest
      simp only [chainN, registerSegs, Node.children_mk, regChildren, hcond, if_true,
        ihx, Except.map, Node.withChildren_mk]

theorem registerSegs_dup (m p'' : String) (h'' : Nat) (R : RouteMap) (M : List String)
    (pre : String) (t : NodeType) (segs : List String)
    (hstat : ∀ s ∈ segs, determineNodeType s = NodeType.nodePrefixKind)
    (htaken : (lookupR R m).isSome = true) :
    isErr (registerSegs m p'' h'' (chainN (some R) M pre t segs) segs) = true := by
  induction segs generalizing pre t with
  | nil =>
      simp [chainN, registerSegs, addRouteToNode, isMethodTaken, htaken]
  | cons s rest ih =>
      have hs : determineNodeType s = NodeType.nodePrefixKind := hstat s (by simp)
      have hrest : ∀ x ∈ rest, determineNodeType x = NodeType.nodePrefixKind :=
        fun x hx => hstat x (by simp [hx])
      have hcond : ((chainN (some R) M ("/" ++ s) (determineNodeType ("/" ++ s)) rest).pre
            == "/" ++ s &&
          (chainN (some R) M ("/" ++ s) (determineNodeType ("/" ++ s)) rest).type_
            == determineNodeType s) = true := by
        rw [chainN_pre, chainN_type, determineNodeType_slash, hs]
        simp
      simp only [chainN, registerSegs, Node.children_mk, regChildren, hcond, if_true]
      cases hr : registerSegs m p'' h'' (chainN (some R) M ("/" ++ s)
          (determineNodeType ("/" ++ s)) rest) rest with
      | error e => simp
      | ok c' =>
          have := ih ("/" ++ s) (determineNodeType ("/" ++ s)) hrest
          rw [hr] at this
          simp at this

theorem serveWalk_congr (method : String) (n n' : Node)
    (hc : n.children = n'.children) (hr : n.routes = n'.routes)
    (segs params : List String) :
    serveWalk method n segs params = serveWalk method n' segs params := by
  cases segs with
  | nil => simp only [serveWalk, hr]
  | cons s rest => simp only [serveWalk, hc]

theorem cleanChildren_none (method path : String) (hid : Nat) (s : String)
    (rest : List String) (cs : List Node)
    (hclean : cleanChildren (fun c => cleanReg c rest) s cs = true)
    (hnone : regChildren (fun c => registerSegs method path hid c rest) s cs = none) :
    ∀ c ∈ cs, matchStep s c = none := by
  induction cs with
  | nil => simp
  | cons c cs ih =>
      by_cases hcond : (c.pre == "/" ++ s && c.type_ == determineNodeType s) = true
      · simp only [regChildren, hcond, if_true] at hnone
        simp at hnone
      · rw [Bool.not_eq_true] at hcond
        simp only [cleanChildren, hcond, Bool.false_eq_true, if_false, Bool.and_eq_true]
          at hclean
        simp only [regChildren, hcond, Bool.false_eq_true, if_false] at hnone
        intro d hd
        rcases hd with _ | hd
        · exact Option.isNone_iff_eq_none.mp hclean.1
        · exact ih hclean.2 (by cases hrc : regChildren (fun c => registerSegs method path hid c rest) s cs with
            | none => rfl
            | some res => rw [hrc] at hnone; simp at hnone) d (by assumption)

theorem regChildren_firstMatch (method path : String) (hid : Nat) (s : String)
    (rest : List String) (cs cs' : List Node)
    (hclean : cleanChildren (fun c => cleanReg c rest) s cs = true)
    (hrc : regChildren (fun c => registerSegs method path hid c rest) s cs = some (.ok cs'))
    (IH : ∀ c c', cleanReg c rest = true → registerSegs method path hid c rest = .ok c' →
      ∀ params, serveWalk method c' rest params = .matched (mkRoute method path hid) params) :
    ∃ c', firstMatch s cs' = some (c', false) ∧
      ∀ params, serveWalk method c' rest params = .matched (mkRoute method path hid) params := by
  induction cs generalizing cs' with
  | nil => simp [regChildren] at hrc
  | cons c cs ihcs =>
      by_cases hcond : (c.pre == "/" ++ s && c.type_ == determineNodeType s) = true
      · simp only [regChildren, hcond, if_true, Option.some.injEq] at hrc
        cases hr : registerSegs method path hid c rest with
        | error e => rw [hr] at hrc; simp [Except.map] at hrc
        | ok c'' =>
            rw [hr] at hrc
            simp only [Except.map, Except.ok.injEq] at hrc
            subst hrc
            simp only [cleanChildren, hcond, if_true] at hclean
            have hpre : c''.pre = "/" ++ s := by
              have hp := (registerSegs_pre_type method path hid c c'' rest hr).1
              rw [hp]
              exact eq_of_beq (Bool.and_eq_true .. ▸ hcond).1
            exact ⟨c'', by simp [firstMatch, matchStep_exact s c'' hpre],
              IH c c'' hclean hr⟩
      · rw [Bool.not_eq_true] at hcond
        simp only [cleanChildren, hcond, Bool.false_eq_true, if_false, Bool.and_eq_true]
          at hclean
        simp only [regChildren, hcond, Bool.false_eq_true, if_false] at hrc
        cases hrc0 : regChildren (fun c => registerSegs method path hid c rest) s cs with
        | none => rw [hrc0] at hrc; simp at hrc
        | some res =>
            rw [hrc0] at hrc
            simp only [Option.map_some', Option.some.injEq] at hrc
            cases res with
            | error e => simp [Except.map] at hrc
            | ok cs0 =>
                simp only [Except.map, Except.ok.injEq] at hrc
                subst hrc
                obtain ⟨c', hfm, hserve⟩ := ihcs cs0 hclean.2 hrc0
                refine ⟨c', ?_, hserve⟩
                have hnone : matchStep s c = none := Option.isNone_iff_eq_none.mp hclean.1
                simp [firstMatch, hnone, hfm]

theorem registerSegs_serveWalk (method path : String) (hid : Nat)
    (segs : List String) (n n' : Node)
    (hclean : cleanReg n segs = true)
    (hreg : registerSegs method path hid n segs = .ok n')
    (params : List String) :
    serveWalk method n' segs params = .matched (mkRoute method path hid) params := by
  induction segs generalizing n n' params with
  | nil =>
      cases n with
      | mk p r a cs t =>
          simp only [registerSegs, addRouteToNode] at hreg
          split at hreg
          · simp at hreg
          · rw [Except.ok.injEq] at hreg
            subst hreg
            simp only [serveWalk, Node.routes_mk]
            rw [lookupR_insertR_self]
  | cons s rest ih =>
      simp only [cleanReg] at hclean
      simp only [registerSegs] at hreg
      cases hrc : regChildren (fun c => registerSegs method path hid c rest) s n.children with
      | some res =>
          rw [hrc] at hreg
          cases res with
          | error e => simp [Except.map] at hreg
          | ok cs' =>
              simp only [Except.map, Except.ok.injEq] at hreg
              subst hreg
              obtain ⟨c', hfm, hserve⟩ :=
                regChildren_firstMatch method path hid s rest n.children cs' hclean hrc ih
              simp only [serveWalk, Node.children_withChildren, hfm]
              exact hserve _
      | none =>
          rw [hrc] at hreg
          cases haC : addChild n ("/" ++ s) with
          | error e => rw [haC] at hreg; simp [bind, Except.bind] at hreg
          | ok c =>
              rw [haC] at hreg
              simp only [bind, Except.bind] at hreg
              have hc : c = newChildNode ("/" ++ s) := addChild_ok n ("/" ++ s) c haC
              subst hc
              rw [show newChildNode ("/" ++ s) =
                    Node.mk ("/" ++ s) none [] [] (determineNodeType ("/" ++ s)) from rfl,
                registerSegs_fresh] at hreg
              rw [Except.ok.injEq] at hreg
              subst hreg
              have hall : ∀ d ∈ n.children, matchStep s d = none :=
                cleanChildren_none method path hid s rest n.children hclean hrc
              simp only [serveWalk, Node.children_withChildren]
              rw [firstMatch_append_none s n.children _ hall]
              have hm : matchStep s (chainN (some [(method, mkRoute method path hid)])
                  [method] ("/" ++ s) (determineNodeType ("/" ++ s)) rest) = some false :=
                matchStep_exact s _ (chainN_pre _ _ _ _ _)
              simp only [firstMatch, hm]
              rw [serveWalk_chainN]
              simp [lookupR]

theorem headChar_ne_empty (p : String) (c : Char) (h : headChar p = some c) : p ≠ "" := by
  intro he
  subst he
  exact Option.noConfusion h

theorem registerRoute_slash (r : Router) (method path : String) (hid : Nat) (root : Node)
    (hroot : r.rootNode = some root) (hs : headChar path = some '/') :
    registerRoute r method path hid =
      (registerSegs method path hid root (segmentPath path)).map
        (fun root' => (routerUpd r root' (mkRoute method path hid),
          mkRoute method path hid)) := by
  have hne : path ≠ "" := headChar_ne_empty path '/' hs
  have h1 : ¬((path = "" ∨ headChar path ≠ some '/') ∧ (segmentPath path).length < 2) := by
    rintro ⟨h1 | h1, _⟩
    · exact hne h1
    · exact h1 hs
  have h2 : ¬(headChar path ≠ some '/' ∧ (segmentPath path).length > 0) := by
    rintro ⟨h1, _⟩
    exact h1 hs
  unfold registerRoute
  simp only [if_neg h1, if_neg h2, hroot]

theorem trimChar_eq_nil_iff (c : Char) (l : List Char) :
    trimChar c l = [] ↔ ∀ x ∈ l, x = c := by
  unfold trimChar
  rw [List.reverse_eq_nil_iff, List.dropWhile_eq_nil_iff]
  constructor
  · intro h x hx
    have hx' : x ∈ l.takeWhile (· == c) ∨ x ∈ l.dropWhile (· == c) := by
      rw [← List.mem_append, List.takeWhile_append_dropWhile]
      exact hx
    rcases hx' with hx' | hx'
    · have := List.mem_takeWhile_imp hx'
      simpa using this
    · have := h x (List.mem_reverse.mpr hx')
      simpa using this
  · intro h x hx
    have : x ∈ l := (List.dropWhile_sublist (p := (· == c)) (l := l)).mem
      (List.mem_reverse.mp hx)
    exact beq_iff_eq.mpr (h x this)

theorem splitOnChar_ne_nil (c : Char) (l : List Char) : splitOnChar c l ≠ [] := by
  induction l with
  | nil => simp [splitOnChar]
  | cons x xs ih =>
      cases h : splitOnChar c xs with
      | nil => exact absurd h ih
      | cons g gs =>
          simp only [splitOnChar, h]
          by_cases hx : (x == c) = true <;> simp [hx]

theorem splitOnChar_no_sep (c : Char) (l : List Char) (g : List Char)
    (hg : g ∈ splitOnChar c l) (x : Char) (hx : x ∈ g) : x ≠ c := by
  induction l generalizing g with
  | nil =>
      simp only [splitOnChar, List.mem_singleton] at hg
      subst hg
      simp at hx
  | cons y ys ih =>
      cases h : splitOnChar c ys with
      | nil => exact absurd h (splitOnChar_ne_nil c ys)
      | cons g0 gs =>
          simp only [splitOnChar, h] at hg
          by_cases hy : (y == c) = true
          · simp only [hy, if_true] at hg
            rcases List.mem_cons.mp hg with rfl | hg2
            · simp at hx
            · exact ih g (by rw [h]; exact hg2) hx
          · simp only [hy, Bool.false_eq_true, if_false] at hg
            rcases List.mem_cons.mp hg with rfl | hg2
            · rcases List.mem_cons.mp hx with rfl | hx2
              · intro hxc
                exact hy (beq_iff_eq.mpr hxc)
              · exact ih g0 (by rw [h]; exact List.mem_cons_self g0 gs) hx2
            · exact ih g (by rw [h]; exact List.mem_cons.mpr (Or.inr hg2)) hx

theorem segmentPath_eq_nil_iff (path : String) :
    segmentPath path = [] ↔ ∀ ch ∈ path.toList, ch = '/' := by
  unfold segmentPath
  by_cases h : (trimChar '/' path.toList).isEmpty = true
  · rw [if_pos h]
    simp only [true_iff]
    exact (trimChar_eq_nil_iff '/' path.toList).mp (List.isEmpty_iff.mp h)
  · rw [if_neg h]
    constructor
    · intro hmap
      exact absurd (List.map_eq_nil_iff.mp hmap) (splitOnChar_ne_nil '/' _)
    · intro hall
      exact absurd (List.isEmpty_iff.mpr ((trimChar_eq_nil_iff '/' path.toList).mpr hall)) h

theorem lookupR_copyList_notmem (d s : RouteMap) (k : String)
    (h : k ∉ s.map Prod.fst) :
    lookupR (copyList d s) k = lookupR d k := by
  induction s generalizing d with
  | nil => rfl
  | cons kv s' ih =>
      simp only [List.map_cons, List.mem_cons, not_or] at h
      have step : copyList d (kv :: s') = copyList (insertR d kv.1 kv.2) s' := rfl
      rw [step, ih _ h.2]
      exact lookupR_insertR_ne d k kv.1 kv.2 (fun he => h.1 he.symm)

theorem lookupR_copyList (d s : RouteMap) (k : String) (v : Route)
    (hnodup : (s.map Prod.fst).Nodup) (hs : lookupR s k = some v) :
    lookupR (copyList d s) k = some v := by
  induction s generalizing d with
  | nil => simp [lookupR] at hs
  | cons kv s' ih =>
      obtain ⟨k0, v0⟩ := kv
      have step : copyList d ((k0, v0) :: s') = copyList (insertR d k0 v0) s' := rfl
      simp only [List.map_cons, List.nodup_cons] at hnodup
      by_cases hk : k0 = k
      · subst hk
        simp only [lookupR, beq_self_eq_true, if_true, Option.some.injEq] at hs
        subst hs
        rw [step, lookupR_copyList_notmem _ _ _ hnodup.1]
        exact lookupR_insertR_self d k0 v0
      · simp only [lookupR, beq_iff_eq, if_neg hk] at hs
        rw [step]
        exact ih (insertR d k0 v0) hnodup.2 hs

theorem mchain_pre (subRoot : Node) (pre : String) (segs : List String) :
    (mchain subRoot pre segs).pre = pre := by
  cases segs <;> rfl

theorem mountWalk_fresh (subRoot : Node) (segs : List String) (pre : String)
    (hsr : subRoot.routes = none) :
    mountWalk subRoot segs (newNode pre) = .ok (mchain subRoot pre segs) := by
  induction segs generalizing pre with
  | nil =>
      simp [mountWalk, spliceAt, newNode, hsr, mapsCopy, mchain, bind, Except.bind]
  | cons s rest ih =>
      have ihx := ih ("/" ++ s)
      rw [show newNode ("/" ++ s) =
        Node.mk ("/" ++ s) none [] [] (determineNodeType ("/" ++ s)) from rfl] at ihx
      simp only [mountWalk, newNode, Node.children_mk, mountChildren, bind, Except.bind, ihx]
      simp [mchain]

theorem serveWalk_mchain (method : String) (subRoot : Node) (pre : String)
    (segs q params : List String) (hsr : subRoot.routes = none) :
    serveWalk method (mchain subRoot pre segs) (segs ++ q) params =
      serveWalk method subRoot q params := by
  induction segs generalizing pre with
  | nil =>
      exact serveWalk_congr method _ subRoot (by simp [mchain]) (by simp [mchain, hsr])
        q params
  | cons s rest ih =>
      have hm : matchStep s (mchain subRoot ("/" ++ s) rest) = some false :=
        matchStep_exact s _ (mchain_pre _ _ _)
      simp only [mchain, List.cons_append, serveWalk, Node.children_mk, firstMatch, hm]
      exact ih ("/" ++ s)

theorem serveWalk_methodNotAllowed_iff (method : String) (n : Node)
    (segs params : List String) :
    serveWalk method n segs params = ServeResult.methodNotAllowed ↔
      ∃ t rm, walkTo n segs = some t ∧ t.routes = some rm ∧ lookupR rm method = none := by
  induction segs generalizing n params with
  | nil =>
      cases hr : n.routes with
      | none => simp [serveWalk, walkTo, hr]
      | some rm =>
          cases hl : lookupR rm method with
          | none => simp [serveWalk, walkTo, hr, hl]
          | some rt => simp [serveWalk, walkTo, hr, hl]
  | cons s rest ih =>
      cases hf : firstMatch s n.children with
      | none => simp [serveWalk, walkTo, hf]
      | some cb =>
          obtain ⟨c, cap⟩ := cb
          simp only [serveWalk, walkTo, hf]
          exact ih c _

theorem allNodup_cons (c : Node) (rest : List Node) :
    allNodup (c :: rest) = (prefixesNodup c && allNodup rest) := by
  cases c with
  | mk p r a cs t => simp [allNodup, prefixesNodup]

theorem allNodup_append (l1 l2 : List Node) :
    allNodup (l1 ++ l2) = (allNodup l1 && allNodup l2) := by
  induction l1 with
  | nil => simp [allNodup]
  | cons c cs ih =>
      rw [List.cons_append, allNodup_cons, allNodup_cons, ih, Bool.and_assoc]

theorem prefixesNodup_mk (p r a cs t) :
    prefixesNodup (Node.mk p r a cs t) = (nodupStrs (cs.map Node.pre) && allNodup cs) := rfl

theorem prefixesNodup_withChildren (n : Node) (cs : List Node) :
    prefixesNodup (n.withChildren cs) = (nodupStrs (cs.map Node.pre) && allNodup cs) := by
  cases n
  rw [Node.withChildren_mk, prefixesNodup_mk]

theorem chainN_nodup (R : Option RouteMap) (M : List String) (pre : String) (t : NodeType)
    (segs : List String) : prefixesNodup (chainN R M pre t segs) = true := by
  induction segs generalizing pre t with
  | nil => simp [chainN, prefixesNodup_mk, nodupStrs, allNodup]
  | cons s rest ih =>
      simp [chainN, prefixesNodup_mk, nodupStrs, allNodup_cons, allNodup, ih]

theorem addRouteToNode_nodup (method path : String) (hid : Nat) (n n' : Node)
    (h : addRouteToNode method path hid n = .ok n') :
    prefixesNodup n' = prefixesNodup n := by
  cases n with
  | mk p r a cs t =>
      simp only [addRouteToNode] at h
      split at h
      · simp at h
      · rw [Except.ok.injEq] at h
        subst h
        rw [prefixesNodup_mk, prefixesNodup_mk]

theorem regChildren_nodup (method path : String) (hid : Nat) (s : String)
    (rest : List String) (cs cs' : List Node)
    (hrc : regChildren (fun c => registerSegs method path hid c rest) s cs = some (.ok cs'))
    (IH : ∀ c c', registerSegs method path hid c rest = .ok c' →
      prefixesNodup c = true → prefixesNodup c' = true)
    (hcs : allNodup cs = true) :
    cs'.map Node.pre = cs.map Node.pre ∧ allNodup cs' = true := by
  induction cs generalizing cs' with
  | nil => simp [regChildren] at hrc
  | cons c cs0 ih =>
      rw [allNodup_cons, Bool.and_eq_true] at hcs
      by_cases hcond : (c.pre == "/" ++ s && c.type_ == determineNodeType s) = true
      · simp only [regChildren, hcond, if_true, Option.some.injEq] at hrc
        cases hr : registerSegs method path hid c rest with
        | error e => rw [hr] at hrc; simp [Except.map] at hrc
        | ok c'' =>
            rw [hr] at hrc
            simp only [Except.map, Except.ok.injEq] at hrc
            subst hrc
            refine ⟨?_, ?_⟩
            · simp [List.map_cons, (registerSegs_pre_type method path hid c c'' rest hr).1]
            · rw [allNodup_cons, IH c c'' hr hcs.1, hcs.2]
              rfl
      · rw [Bool.not_eq_true] at hcond
        simp only [regChildren, hcond, Bool.false_eq_true, if_false] at hrc
        cases hrc0 : regChildren (fun c => registerSegs method path hid c rest) s cs0 with
        | none => rw [hrc0] at hrc; simp at hrc
        | some res =>
            rw [hrc0] at hrc
            simp only [Option.map_some', Option.some.injEq] at hrc
            cases res with
            | error e => simp [Except.map] at hrc
            | ok cs1 =>
                simp only [Except.map, Except.ok.injEq] at hrc
                subst hrc
                obtain ⟨hmap, hnd⟩ := ih cs1 hrc0 hcs.2
                exact ⟨by simp [List.map_cons, hmap],
                  by rw [allNodup_cons, hcs.1, hnd]; rfl⟩

theorem registerSegs_nodup (method path : String) (hid : Nat)
    (segs : List String) (n n' : Node)
    (hreg : registerSegs method path hid n segs = .ok n')
    (hn : prefixesNodup n = true) : prefixesNodup n' = true := by
  induction segs generalizing n n' with
  | nil =>
      rw [addRouteToNode_nodup method path hid n n' hreg]
      exact hn
  | cons s rest ih =>
      simp only [registerSegs] at hreg
      cases hrc : regChildren (fun c => registerSegs method path hid c rest) s n.children with
      | some res =>
          rw [hrc] at hreg
          cases res with
          | error e => simp [Except.map] at hreg
          | ok cs' =>
              simp only [Except.map, Except.ok.injEq] at hreg
              subst hreg
              cases n with
              | mk p r a cs t =>
                  simp only [Node.children_mk] at hrc
                  rw [prefixesNodup_mk, Bool.and_eq_true] at hn
                  obtain ⟨hmap, hnd⟩ := regChildren_nodup method path hid s rest cs cs' hrc
                    (fun c c' hr hc => ih c c' hr hc) hn.2
                  rw [Node.withChildren_mk, prefixesNodup_mk, hmap]
                  simp [hn.1, hnd]
      | none =>
          rw [hrc] at hreg
          cases haC : addChild n ("/" ++ s) with
          | error e => rw [haC] at hreg; simp [bind, Except.bind] at hreg
          | ok c =>
              rw [haC] at hreg
              simp only [bind, Except.bind] at hreg
              have hc : c = newChildNode ("/" ++ s) := addChild_ok n ("/" ++ s) c haC
              subst hc
              rw [show newChildNode ("/" ++ s) =
                    Node.mk ("/" ++ s) none [] [] (determineNodeType ("/" ++ s)) from rfl,
                registerSegs_fresh] at hreg
              rw [Except.ok.injEq] at hreg
              subst hreg
              -- the appended chain's text is not among the existing children's texts
              have hnotmem : ("/" ++ s) ∉ n.children.map Node.pre := by
                intro hmem
                obtain ⟨c0, hc0, hc0p⟩ := List.mem_map.mp hmem
                have : (n.children.any fun c => c.pre == ("/" ++ s)) = true :=
                  List.any_eq_true.mpr ⟨c0, hc0, beq_iff_eq.mpr hc0p⟩
                simp only [addChild, this] at haC
                split at haC <;> simp at haC
              cases n with
              | mk p r a cs t =>
                  rw [prefixesNodup_mk, Bool.and_eq_true] at hn
                  rw [Node.withChildren_mk, prefixesNodup_mk]
                  simp only [Node.children_mk] at hnotmem
                  have hch := chainN_nodup (some [(method, mkRoute method path hid)])
                    [method] ("/" ++ s) (determineNodeType ("/" ++ s)) rest
                  simp only [List.map_append, List.map_cons, List.map_nil,
                    chainN_pre, allNodup_append, allNodup_cons, allNodup]
                  simp only [nodupStrs, decide_eq_true_eq] at hn ⊢
                  rw [Bool.and_eq_true]
                  refine ⟨?_, ?_⟩
                  · exact decide_eq_true (List.Nodup.append hn.1 (List.nodup_singleton _)
                      (fun x hx hy => hnotmem (by simp only [Node.children_mk] at hx; simp at hy; rw [hy] at hx; exact hx)))
                  · simp [hn.2, hch]

theorem addRouteToNode_shape (method path : String) (hid : Nat) (n n' : Node)
    (h : addRouteToNode method path hid n = .ok n') :
    n'.pre = n.pre ∧ n'.children = n.children := by
  cases n with
  | mk p r a cs t =>
      simp only [addRouteToNode] at h
      split at h
      · simp at h
      · rw [Except.ok.injEq] at h
        subst h
        simp

theorem registerRoute_nodup (r : Router) (method path : String) (hid : Nat)
    (r' : Router) (rt : Route)
    (hreg : registerRoute r method path hid = .ok (r', rt))
    (hn : routerNodup r = true) : routerNodup r' = true := by
  simp only [registerRoute] at hreg
  by_cases h1 : (path = "" ∨ headChar path ≠ some '/') ∧ (segmentPath path).length < 2
  · rw [if_pos h1] at hreg
    cases hroot : r.rootNode with
    | none => simp only [hroot] at hreg; simp at hreg
    | some root =>
        simp only [hroot] at hreg
        simp only [routerNodup, hroot] at hn
        have hbindAtRoot : ∀ root' : Node,
            addRouteToNode method path hid root = .ok root' →
            routerUpd r root' (mkRoute method path hid) = r' →
            routerNodup r' = true := by
          intro root' ha hup
          rw [← hup]
          unfold routerNodup
          simp only [routerUpd]
          rw [addRouteToNode_nodup method path hid root root' ha]
          exact hn
        split at hreg
        · cases ha : addRouteToNode method path hid root with
          | error e => rw [ha] at hreg; simp [Except.map] at hreg
          | ok root' =>
              rw [ha] at hreg
              simp only [Except.map, Except.ok.injEq, Prod.mk.injEq] at hreg
              exact hbindAtRoot root' ha hreg.1
        · split at hreg
          · cases ha : addRouteToNode method path hid root with
            | error e => rw [ha] at hreg; simp [Except.map] at hreg
            | ok root' =>
                rw [ha] at hreg
                simp only [Except.map, Except.ok.injEq, Prod.mk.injEq] at hreg
                exact hbindAtRoot root' ha hreg.1
          · cases haC : addChild root path with
            | error e => rw [haC] at hreg; simp [bind, Except.bind] at hreg
            | ok c =>
                rw [haC] at hreg
                simp only [bind, Except.bind] at hreg
                cases ha : addRouteToNode method path hid c with
                | error e => rw [ha] at hreg; simp at hreg
                | ok c' =>
                    rw [ha] at hreg
                    simp only [Except.ok.injEq, Prod.mk.injEq] at hreg
                    rw [← hreg.1]
                    unfold routerNodup
                    simp only [routerUpd]
                    have hcshape := addChild_ok root path c haC
                    subst hcshape
                    have hshape := addRouteToNode_shape method path hid _ c' ha
                    have hp : c'.pre = path := by
                      rw [hshape.1]; simp [newChildNode]
                    have hpc : c'.children = [] := by
                      rw [hshape.2]; simp [newChildNode]
                    have hnotmem : path ∉ root.children.map Node.pre := by
                      intro hmem
                      obtain ⟨c0, hc0, hc0p⟩ := List.mem_map.mp hmem
                      have hany : (root.children.any fun d => d.pre == path) = true :=
                        List.any_eq_true.mpr ⟨c0, hc0, beq_iff_eq.mpr hc0p⟩
                      simp only [addChild, hany] at haC
                      split at haC <;> simp at haC
                    have hcnd : prefixesNodup c' = true := by
                      cases c' with
                      | mk pc rc ac csc tc =>
                          simp only [Node.children_mk] at hpc
                          subst hpc
                          simp [prefixesNodup_mk, nodupStrs, allNodup]
                    cases root with
                    | mk p0 r0 a0 cs0 t0 =>
                        rw [prefixesNodup_mk, Bool.and_eq_true] at hn
                        rw [Node.withChildren_mk, prefixesNodup_mk]
                        simp only [Node.children_mk] at hnotmem
                        simp only [List.map_append, List.map_cons, List.map_nil,
                          allNodup_append, allNodup_cons, allNodup, hp]
                        simp only [nodupStrs, decide_eq_true_eq] at hn ⊢
                        rw [Bool.and_eq_true]
                        refine ⟨?_, ?_⟩
                        · exact decide_eq_true (List.Nodup.append hn.1
                            (List.nodup_singleton _)
                            (fun x hx hy =>
                              hnotmem (by simp at hy; rw [hy] at hx; exact hx)))
                        · simp [hn.2, hcnd]
  · rw [if_neg h1] at hreg
    by_cases h2 : headChar path ≠ some '/' ∧ (segmentPath path).length > 0
    · rw [if_pos h2] at hreg; simp at hreg
    · rw [if_neg h2] at hreg
      cases hroot : r.rootNode with
      | none => simp only [hroot] at hreg; simp at hreg
      | some root =>
          simp only [hroot] at hreg
          simp only [routerNodup, hroot] at hn
          cases hrs : registerSegs method path hid root (segmentPath path) with
          | error e => rw [hrs] at hreg; simp [Except.map] at hreg
          | ok root' =>
              rw [hrs] at hreg
              simp only [Except.map, Except.ok.injEq, Prod.mk.injEq] at hreg
              rw [← hreg.1]
              unfold routerNodup
              simp only [routerUpd]
              exact registerSegs_nodup method path hid (segmentPath path) root root' hrs hn

/-- C1 (counterexample): both `/l/x` and `/list` are purely static registered
routes, yet dispatching `GET /list` is a routing miss: during the walk the
earlier-inserted sibling `/l` is taken first because its text is a string
prefix of the segment (`strings.HasPrefix("/list", "/l")`), so the claim
"dispatching a registered static path selects exactly that Route" is false. -/
theorem claim_C1_counterexample :
    (do
      let a0 ← NewRouter "a"
      let (a1, _) ← registerRoute a0 "GET" "/l/x" 1
      let (a2, _) ← registerRoute a1 "GET" "/list" 2
      Except.ok (serve a2 "GET" "/list") : Except String (Option ServeResult))
      = .ok (some ServeResult.notFound) := rfl

/-- C1 (amended): for a route registered via `registerRoute` with a
slash-rooted path, dispatching the same method and path selects exactly that
route, provided the registration walk is shadow-free (`cleanReg`): at every
node along the path, no sibling scanned before the child the registration
descends into (or creates) passes any of the three dispatch tests for that
segment.  Without the proviso an earlier-inserted sibling whose text is a
string prefix of the segment diverts the walk (see the counterexample). -/
theorem claim_C1_amended (r : Router) (root : Node) (method path : String) (hid : Nat)
    (r' : Router) (rt : Route)
    (hroot : r.rootNode = some root)
    (hs : headChar path = some '/')
    (hclean : cleanReg root (segmentPath path) = true)
    (hreg : registerRoute r method path hid = .ok (r', rt)) :
    serve r' method path = some (ServeResult.matched rt []) := by
  rw [registerRoute_slash r method path hid root hroot hs] at hreg
  cases hr : registerSegs method path hid root (segmentPath path) with
  | error e => rw [hr] at hreg; simp [Except.map] at hreg
  | ok root' =>
      rw [hr] at hreg
      simp only [Except.map, Except.ok.injEq, Prod.mk.injEq] at hreg
      obtain ⟨hr', hrt⟩ := hreg
      subst hrt
      rw [← hr']
      simp only [serve, routerUpd]
      rw [registerSegs_serveWalk method path hid (segmentPath path) root root' hclean hr]

/-- C1 (witness): the amended theorem applied to a fresh router and the
static path `/x`. -/
theorem claim_C1_witness :
    serve ({ name := "a"
             path := ""
             rootNode := some (Node.mk "a" none []
               [Node.mk "/x" (some [("GET", mkRoute "GET" "/x" 1)]) ["GET"] []
                 NodeType.nodePrefixKind] NodeType.nodePrefixKind)
             routes := [mkRoute "GET" "/x" 1]
             routers := []
             parent := none } : Router) "GET" "/x"
      = some (ServeResult.matched (mkRoute "GET" "/x" 1) []) :=
  claim_C1_amended freshRouterA rootA "GET" "/x" 1 _ (mkRoute "GET" "/x" 1)
    rfl rfl rfl rfl

/-- C2 (counterexample): at a node with a Param child inserted before a
Static child `/x`, dispatching segment `x` takes the Param child and captures
`x`, even though an exact Static match exists; with the insertion order
reversed the Static child is taken.  So the child choice is not the claimed
fixed Static-first priority and does depend on insertion order. -/
theorem claim_C2_counterexample :
    serveWalk "GET" (Node.mk "r" none []
      [Node.mk "{id}" (some [("GET", mkRoute "GET" "/u/p" 1)]) ["GET"] []
        NodeType.nodePathParam,
       Node.mk "/x" (some [("GET", mkRoute "GET" "/x" 2)]) ["GET"] []
        NodeType.nodePrefixKind] NodeType.nodePrefixKind) ["x"] []
      = ServeResult.matched (mkRoute "GET" "/u/p" 1) ["x"] ∧
    serveWalk "GET" (Node.mk "r" none []
      [Node.mk "/x" (some [("GET", mkRoute "GET" "/x" 2)]) ["GET"] []
        NodeType.nodePrefixKind,
       Node.mk "{id}" (some [("GET", mkRoute "GET" "/u/p" 1)]) ["GET"] []
        NodeType.nodePathParam] NodeType.nodePrefixKind) ["x"] []
      = ServeResult.matched (mkRoute "GET" "/x" 2) [] ∧
    mkRoute "GET" "/u/p" 1 ≠ mkRoute "GET" "/x" 2 :=
  ⟨rfl, rfl, by decide⟩

/-- C2 (amended): during dispatch the children are scanned in insertion order
and the first child passing any of the three per-child tests is taken; the
tests are tried per child in the order exact text, Param kind (capturing the
raw segment), text-is-string-prefix of the slashed or raw segment; Wildcard
children receive no special treatment.  An exact text match wins within a
single child, but across siblings the choice depends on insertion order. -/
theorem claim_C2_amended :
    (∀ (seg : String) (l r : List Node) (c : Node) (cap : Bool),
      (∀ d ∈ l, matchStep seg d = none) → matchStep seg c = some cap →
      firstMatch seg (l ++ c :: r) = some (c, cap)) ∧
    (∀ (seg : String) (c : Node), c.pre = "/" ++ seg → matchStep seg c = some false) ∧
    (∀ (method seg : String) (rest params : List String) (n c : Node) (cap : Bool),
      firstMatch seg n.children = some (c, cap) →
      serveWalk method n (seg :: rest) params =
        serveWalk method c rest (if cap then params ++ [seg] else params)) := by
  refine ⟨?_, matchStep_exact, ?_⟩
  · intro seg l r c cap hl hc
    rw [firstMatch_append_none seg l (c :: r) hl]
    simp [firstMatch, hc]
  · intro method seg rest params n c cap hf
    simp [serveWalk, hf]

/-- C2 (witness): the amended first-match rule applied at a node whose first
child fails all tests and whose second child is a Param node. -/
theorem claim_C2_witness :
    firstMatch "x" [Node.mk "/y" none [] [] NodeType.nodePrefixKind,
      Node.mk "{id}" none [] [] NodeType.nodePathParam] =
      some (Node.mk "{id}" none [] [] NodeType.nodePathParam, true) :=
  claim_C2_amended.1 "x" [Node.mk "/y" none [] [] NodeType.nodePrefixKind] []
    (Node.mk "{id}" none [] [] NodeType.nodePathParam) true (by decide) rfl

/-- C3 (code bug): with `GET /files/*rest` registered, the claim (and spec
§4.4) promise `rest="a/b/c"` for `/files/a/b/c` and `rest=""` for `/files/`;
the dispatcher has no Wildcard branch at all (and the child is stored with
text `/*rest` and Static kind, since `addChild` classifies the slash-prefixed
text), so both requests are 404 and only the literal path `/files/*rest`
matches, capturing nothing. -/
theorem claim_C3_eval :
    (do
      let a0 ← NewRouter "a"
      let (a1, _) ← registerRoute a0 "GET" "/files/*rest" 1
      Except.ok (serve a1 "GET" "/files/a/b/c", serve a1 "GET" "/files/",
        serve a1 "GET" "/files/*rest") :
      Except String (Option ServeResult × Option ServeResult × Option ServeResult))
      = .ok (some ServeResult.notFound, some ServeResult.notFound,
          some (ServeResult.matched (mkRoute "GET" "/files/*rest" 1) [])) := rfl

/-- C4 (counterexample): `segmentPath` does not discard empty segments from
collapsed slashes: `/a//b` tokenizes to `a`, `""`, `b`, so not every produced
segment is non-empty. -/
theorem claim_C4_counterexample :
    segmentPath "/a//b" = ["a", "", "b"] ∧ "" ∈ segmentPath "/a//b" :=
  ⟨rfl, by decide⟩

/-- C4 (amended): `segmentPath` trims leading and trailing `/` and splits on
`/` keeping empty segments from collapsed slashes; an empty or all-slash path
(and only such a path) yields the empty sequence, and no produced segment
contains a `/`.  Registration and dispatch both call this same function
(definitional in this embedding: `registerRoute` and `serve` tokenize with
`segmentPath`). -/
theorem claim_C4_amended (path : String) :
    (segmentPath path = [] ↔ ∀ ch ∈ path.toList, ch = '/') ∧
    (∀ s ∈ segmentPath path, '/' ∉ s.toList) := by
  refine ⟨segmentPath_eq_nil_iff path, ?_⟩
  intro s hs
  unfold segmentPath at hs
  by_cases h : (trimChar '/' path.toList).isEmpty = true
  · rw [if_pos h] at hs
    simp at hs
  · rw [if_neg h] at hs
    obtain ⟨g, hg, hsg⟩ := List.mem_map.mp hs
    intro hmem
    subst hsg
    exact splitOnChar_no_sep '/' _ g hg '/' hmem rfl

/-- C4 (witness): the amended characterization applied to the all-slash path
`///`, which tokenizes to no segments. -/
theorem claim_C4_witness : segmentPath "///" = [] :=
  (claim_C4_amended "///").1.mpr (by decide)

/-- C5 (counterexample): registering GET and then POST at the same exact path
`/u/{id}` does not succeed: the first registration stores the child with text
`/{id}` and Static kind (`determineNodeType` of the slash-prefixed text), but
the second registration's `findChild` looks for kind Param (computed from the
bare segment), misses, and `addChild` panics on the duplicate text.  The
same-method conflict check is never even reached. -/
theorem claim_C5_counterexample :
    isErr (do
      let a0 ← NewRouter "a"
      registerRoute a0 "GET" "/u/{id}" 1) = false ∧
    isErr (do
      let a0 ← NewRouter "a"
      let (a1, _) ← registerRoute a0 "GET" "/u/{id}" 1
      registerRoute a1 "POST" "/u/{id}" 2) = true :=
  ⟨rfl, rfl⟩

/-- C5 (amended): on a fresh router, for a slash-rooted path all of whose
segments are classified Static, registering GET then POST both succeed and
both are independently dispatchable to their own routes; a further GET
registration at the same path fails with a configuration error (panic) before
binding anything, leaving the first GET binding dispatchable.  For paths with
a Param or Wildcard segment the second registration fails instead (see the
counterexample). -/
theorem claim_C5_amended (A0 : Router) (pre0 : String) (t0 : NodeType) (p : String)
    (h1 h2 h3 : Nat)
    (hroot : A0.rootNode = some (Node.mk pre0 none [] [] t0))
    (hs : headChar p = some '/')
    (hstat : ∀ s ∈ segmentPath p, determineNodeType s = NodeType.nodePrefixKind) :
    ∃ A1 rt1 A2 rt2,
      registerRoute A0 "GET" p h1 = .ok (A1, rt1) ∧
      registerRoute A1 "POST" p h2 = .ok (A2, rt2) ∧
      serve A2 "GET" p = some (ServeResult.matched rt1 []) ∧
      serve A2 "POST" p = some (ServeResult.matched rt2 []) ∧
      isErr (registerRoute A2 "GET" p h3) = true := by
  have hGP : ("GET" : String) ≠ "POST" := by decide
  set rt1 := mkRoute "GET" p h1 with hrt1
  set rt2 := mkRoute "POST" p h2 with hrt2
  set segs := segmentPath p with hsegs
  set chain1 := chainN (some [("GET", rt1)]) ["GET"] pre0 t0 segs with hchain1
  set chain2 := chainN (some (insertR [("GET", rt1)] "POST" rt2)) (["GET"] ++ ["POST"])
    pre0 t0 segs with hchain2
  have hreg1 : registerRoute A0 "GET" p h1 = .ok (routerUpd A0 chain1 rt1, rt1) := by
    rw [registerRoute_slash A0 "GET" p h1 _ hroot hs, registerSegs_fresh]
    rfl
  have hA1root : (routerUpd A0 chain1 rt1).rootNode = some chain1 := rfl
  have hfree : lookupR [("GET", rt1)] "POST" = none := by
    simp [lookupR]
  have hreg2 : registerRoute (routerUpd A0 chain1 rt1) "POST" p h2 =
      .ok (routerUpd (routerUpd A0 chain1 rt1) chain2 rt2, rt2) := by
    rw [registerRoute_slash _ "POST" p h2 chain1 hA1root hs, hchain1,
      registerSegs_second "POST" p h2 [("GET", rt1)] ["GET"] pre0 t0 segs hstat hfree]
    rfl
  have hA2root : (routerUpd (routerUpd A0 chain1 rt1) chain2 rt2).rootNode = some chain2 :=
    rfl
  have hlookG : lookupR (insertR [("GET", rt1)] "POST" rt2) "GET" = some rt1 := by
    rw [lookupR_insertR_ne _ "GET" "POST" rt2 hGP.symm]
    simp [lookupR]
  have hlookP : lookupR (insertR [("GET", rt1)] "POST" rt2) "POST" = some rt2 :=
    lookupR_insertR_self [("GET", rt1)] "POST" rt2
  refine ⟨routerUpd A0 chain1 rt1, rt1, routerUpd (routerUpd A0 chain1 rt1) chain2 rt2,
    rt2, hreg1, hreg2, ?_, ?_, ?_⟩
  · simp only [serve, routerUpd, hchain2, ← hsegs]
    rw [serveWalk_chainN]
    simp [hlookG]
  · simp only [serve, routerUpd, hchain2, ← hsegs]
    rw [serveWalk_chainN]
    simp [hlookP]
  · rw [registerRoute_slash _ "GET" p h3 chain2 hA2root hs]
    rw [isErr_map, ← hsegs, hchain2]
    exact registerSegs_dup "GET" p h3 _ _ pre0 t0 segs hstat (by rw [hlookG]; rfl)

/-- C5 (witness): the amended theorem applied to a fresh router and the
static path `/x/y`. -/
theorem claim_C5_witness :
    ∃ A1 rt1 A2 rt2,
      registerRoute freshRouterA "GET" "/x/y" 1 = .ok (A1, rt1) ∧
      registerRoute A1 "POST" "/x/y" 2 = .ok (A2, rt2) ∧
      serve A2 "GET" "/x/y" = some (ServeResult.matched rt1 []) ∧
      serve A2 "POST" "/x/y" = some (ServeResult.matched rt2 []) ∧
      isErr (registerRoute A2 "GET" "/x/y" 3) = true :=
  claim_C5_amended freshRouterA "a" NodeType.nodePrefixKind "/x/y" 1 2 3
    rfl rfl (by decide)

/-- C6 (counterexample): registering the single-segment paths `{a}` and then
`{b}` creates two Param-kind sibling children under the root without any
configuration error, violating the claimed at-most-one-Param-sibling guard. -/
theorem claim_C6_counterexample :
    (do
      let a0 ← NewRouter "a"
      let (a1, _) ← registerRoute a0 "GET" "{a}" 1
      let (a2, _) ← registerRoute a1 "GET" "{b}" 2
      Except.ok (match a2.rootNode with
        | some root =>
            (root.children.filter (fun c => c.type_ == NodeType.nodePathParam)).length
        | none => 0) : Except String Nat) = .ok 2 := rfl

/-- C6 (amended): `addChild` rejects exactly an empty text or a duplicate of
an existing child's text (of any kind) — it does not bound the number of
Param- or Wildcard-kind siblings (see the counterexample) — and consequently
every tree produced by any sequence of successful registrations keeps, at
every node, pairwise-distinct child texts. -/
theorem claim_C6_amended :
    (∀ (n : Node) (pre : String),
      isErr (addChild n pre) =
        (pre == "" || n.children.any (fun c => c.pre == pre))) ∧
    (∀ (r : Router) (method path : String) (hid : Nat) (r' : Router) (rt : Route),
      registerRoute r method path hid = .ok (r', rt) →
      routerNodup r = true → routerNodup r' = true) := by
  refine ⟨?_, registerRoute_nodup⟩
  intro n pre
  unfold addChild
  by_cases h : pre = ""
  · subst h
    simp
  · rw [if_neg h]
    by_cases h2 : (n.children.any fun c => c.pre == pre) = true
    · rw [if_pos h2, h2]
      simp [h]
    · rw [Bool.not_eq_true] at h2
      rw [h2, if_neg (by simp [Bool.false_eq_true])]
      simp [h]

/-- C6 (witness): the amended theorem applied to a fresh router: the
`addChild` error characterization at the bare root, and invariant
preservation through a concrete successful registration. -/
theorem claim_C6_witness :
    isErr (addChild rootA "/x") = (("/x" : String) == "" || rootA.children.any
      (fun c => c.pre == "/x")) ∧
    routerNodup ({ name := "a"
                   path := ""
                   rootNode := some (Node.mk "a" none []
                     [Node.mk "/x" (some [("GET", mkRoute "GET" "/x" 1)]) ["GET"] []
                       NodeType.nodePrefixKind] NodeType.nodePrefixKind)
                   routes := [mkRoute "GET" "/x" 1]
                   routers := []
                   parent := none } : Router) = true :=
  ⟨claim_C6_amended.1 rootA "/x",
   claim_C6_amended.2 freshRouterA "GET" "/x" 1 _ (mkRoute "GET" "/x" 1) rfl
     (by simp [routerNodup, freshRouterA, rootA, prefixesNodup, allNodup, nodupStrs])⟩

/-- C7 (counterexample): A registers `GET /b/u`; B registers `POST /u`; after
`Mount A "/b" B` the route `POST /u` of B is NOT reachable at `/b/u`:
the splice appends B's `/u` child after A's pre-existing `/u` child without
merging, the walk takes A's child, and the request ends in a 405 — so "every
route registered on B is reachable on A at /b + its local path" is false. -/
theorem claim_C7_counterexample :
    (do
      let a0 ← NewRouter "a"
      let (a1, _) ← registerRoute a0 "GET" "/b/u" 1
      let b0 ← NewRouter "b"
      let (b1, _) ← registerRoute b0 "POST" "/u" 2
      let (a2, _) ← Mount a1 "/b" b1
      Except.ok (serve a2 "POST" "/b/u") : Except String (Option ServeResult))
      = .ok (some ServeResult.methodNotAllowed) := rfl

/-- C7 (amended): when the mount chain is freshly created (the host router's
root has no children) and the sub-router's root holds no direct routes,
`Mount` succeeds, splices the sub-router's root children unchanged under the
new mount-point node, and dispatch on the host at the mount path plus any
path behaves exactly as dispatch of that path on the sub-router; in general a
pre-existing child of the mount point with the same text shadows the moved
subtree (see the counterexample).  Mounting a router that is already attached
to a parent always fails with the configuration error, for any valid mount
path. -/
theorem claim_C7_amended :
    (∀ (A B : Router) (aRoot subRoot : Node) (mp p m s0 : String)
       (restSegs : List String),
      A.rootNode = some aRoot → aRoot.children = [] →
      B.rootNode = some subRoot → subRoot.routes = none → B.parent = none →
      headChar mp = some '/' →
      segmentPath mp = s0 :: restSegs →
      segmentPath (mp ++ p) = segmentPath mp ++ segmentPath p →
      ∃ A' B', Mount A mp B = .ok (A', B') ∧ serve A' m (mp ++ p) = serve B m p) ∧
    (∀ (r sub : Router) (mp x : String), headChar mp = some '/' →
      sub.parent = some x →
      Mount r mp sub = .error
        "provided router is already attached. A router may only be attached to one parent") := by
  constructor
  · intro A B aRoot subRoot mp p m s0 restSegs hA hAc hB hsr hBp hmp hseg0 hsegs
    have hmpne : mp ≠ "" := headChar_ne_empty mp '/' hmp
    have hcond1 : ¬(mp = "" ∨ headChar mp ≠ some '/') := by
      rintro (h | h)
      · exact hmpne h
      · exact h hmp
    cases subRoot with
    | mk sp sr sa scs st =>
        have hsr' : sr = none := by simpa using hsr
        subst hsr'
        have hmw : mountWalk (Node.mk s0 none sa scs st) (s0 :: restSegs) aRoot =
            .ok (aRoot.withChildren (aRoot.children ++
              [mchain (Node.mk s0 none sa scs st) ("/" ++ s0) restSegs])) := by
          simp only [mountWalk, hAc, mountChildren, bind, Except.bind,
            mountWalk_fresh (Node.mk s0 none sa scs st) restSegs ("/" ++ s0) rfl]
        refine ⟨{ A with
                  rootNode := some (aRoot.withChildren (aRoot.children ++
                    [mchain (Node.mk s0 none sa scs st) ("/" ++ s0) restSegs]))
                  routers := A.routers ++ [B.name] },
                { B with
                  path := mp
                  parent := some A.name
                  rootNode := some (Node.mk s0 none sa scs st) }, ?_, ?_⟩
        · simp only [Mount, if_neg hcond1, hBp, Option.isSome_none, Bool.false_eq_true,
            if_false, hseg0, hB, hA, hmw, bind, Except.bind]
        · simp only [serve, hB, hseg0] at hsegs ⊢
          rw [hsegs]
          have hm0 : matchStep s0 (mchain (Node.mk s0 none sa scs st) ("/" ++ s0)
              restSegs) = some false :=
            matchStep_exact s0 _ (mchain_pre _ _ _)
          simp only [List.cons_append, serveWalk, Node.children_withChildren, hAc,
            List.nil_append, firstMatch, hm0]
          simp only [List.append_eq, Bool.false_eq_true, if_false]
          rw [serveWalk_mchain m (Node.mk s0 none sa scs st) ("/" ++ s0) restSegs
            (segmentPath p) [] rfl]
          exact congrArg some (serveWalk_congr m (Node.mk s0 none sa scs st)
            (Node.mk sp none sa scs st) rfl rfl (segmentPath p) [])
  · intro r sub mp x hmp hx
    have hmpne : mp ≠ "" := headChar_ne_empty mp '/' hmp
    have hcond1 : ¬(mp = "" ∨ headChar mp ≠ some '/') := by
      rintro (h | h)
      · exact hmpne h
      · exact h hmp
    simp only [Mount, if_neg hcond1, hx, Option.isSome_some, if_true]

/-- C7 (witness): the amended theorem applied to a fresh host router and a
sub-router with the single route `POST /u`, mounted at `/b`. -/
theorem claim_C7_witness :
    ∃ A' B', Mount freshRouterA "/b" subRouterB = .ok (A', B') ∧
      serve A' "POST" ("/b" ++ "/u") = serve subRouterB "POST" "/u" :=
  claim_C7_amended.1 freshRouterA subRouterB rootA
    (Node.mk "b" none [] [Node.mk "/u" (some [("POST", mkRoute "POST" "/u" 2)])
      ["POST"] [] NodeType.nodePrefixKind] NodeType.nodePrefixKind)
    "/b" "/u" "POST" "b" [] rfl rfl rfl rfl rfl rfl rfl rfl

/-- C8 (counterexample): the mount-point node `/b` already holds a GET route;
the sub-router's root holds a GET route too; `Mount` succeeds (no
configuration error) and afterwards dispatching `GET /b` selects the
sub-router's route — the pre-existing binding was silently overwritten. -/
theorem claim_C8_counterexample :
    (do
      let a0 ← NewRouter "a"
      let (a1, _) ← registerRoute a0 "GET" "/b" 1
      let b0 ← NewRouter "b"
      let (b1, _) ← registerRoute b0 "GET" "" 2
      let (a2, _) ← Mount a1 "/b" b1
      Except.ok (serve a2 "GET" "/b") : Except String (Option ServeResult))
      = .ok (some (ServeResult.matched (mkRoute "GET" "" 2) [])) ∧
    mkRoute "GET" "" 2 ≠ mkRoute "GET" "/b" 1 :=
  ⟨rfl, by decide⟩

/-- C8 (amended): the `maps.Copy` merge never reports a method collision:
for any method bound in the source map, copying into a non-nil destination
succeeds and the source's binding is the one subsequently looked up,
silently replacing any pre-existing binding of that method. -/
theorem claim_C8_amended (d s : RouteMap) (k : String) (v : Route)
    (hnodup : (s.map Prod.fst).Nodup) (hs : lookupR s k = some v) :
    ∃ m', mapsCopy (some d) (some s) = .ok (some m') ∧ lookupR m' k = some v := by
  cases s with
  | nil => simp [lookupR] at hs
  | cons kv s' =>
      exact ⟨copyList d (kv :: s'), rfl, lookupR_copyList d (kv :: s') k v hnodup hs⟩

/-- C8 (witness): the amended theorem applied to maps that both bind GET. -/
theorem claim_C8_witness :
    ∃ m', mapsCopy (some [("GET", mkRoute "GET" "/b" 1)])
        (some [("GET", mkRoute "GET" "" 2)]) = .ok (some m') ∧
      lookupR m' "GET" = some (mkRoute "GET" "" 2) :=
  claim_C8_amended [("GET", mkRoute "GET" "/b" 1)] [("GET", mkRoute "GET" "" 2)]
    "GET" (mkRoute "GET" "" 2) (by decide) rfl

/-- C9 (counterexample): against a node bound to GET and POST, `PUT /p` is a
method mismatch, but the 405 response carries no `Allow` header at all — its
only header is the JSON content type — contradicting the claimed
`Allow: GET, POST`. -/
theorem claim_C9_counterexample :
    (do
      let a0 ← NewRouter "a"
      let (a1, _) ← registerRoute a0 "GET" "/p" 1
      let (a2, _) ← registerRoute a1 "POST" "/p" 2
      Except.ok (serve a2 "PUT" "/p") : Except String (Option ServeResult))
      = .ok (some ServeResult.methodNotAllowed) ∧
    (errMethodNotAllowedResponse.headers.map Prod.fst).contains "Allow" = false ∧
    errMethodNotAllowedResponse.status = 405 :=
  ⟨rfl, rfl, rfl⟩

/-- C9 (amended): a dispatch yields the 405 outcome exactly when the walk
lands on a node whose method map is non-nil but lacks the requested method;
the response then written is `ErrMethodNotAllowed`'s fixed one: status 405
with a JSON content type and no `Allow` header (the cached method list is
never consulted). -/
theorem claim_C9_amended :
    (∀ (method : String) (n : Node) (segs params : List String),
      serveWalk method n segs params = ServeResult.methodNotAllowed ↔
        ∃ t rm, walkTo n segs = some t ∧ t.routes = some rm ∧
          lookupR rm method = none) ∧
    dispatchResponse ServeResult.methodNotAllowed = some errMethodNotAllowedResponse ∧
    errMethodNotAllowedResponse.status = 405 ∧
    (∀ v, ("Allow", v) ∉ errMethodNotAllowedResponse.headers) := by
  refine ⟨serveWalk_methodNotAllowed_iff, rfl, rfl, ?_⟩
  intro v hv
  simp only [errMethodNotAllowedResponse, List.mem_singleton, Prod.mk.injEq] at hv
  exact absurd hv.1 (by decide)

/-- C9 (witness): the amended characterization applied to a node bound only
to GET, queried with PUT. -/
theorem claim_C9_witness :
    serveWalk "PUT" (Node.mk "/p" (some [("GET", mkRoute "GET" "/p" 1)]) ["GET"] []
      NodeType.nodePrefixKind) [] [] = ServeResult.methodNotAllowed :=
  (claim_C9_amended.1 "PUT" (Node.mk "/p" (some [("GET", mkRoute "GET" "/p" 1)])
      ["GET"] [] NodeType.nodePrefixKind) [] []).mpr
    ⟨Node.mk "/p" (some [("GET", mkRoute "GET" "/p" 1)]) ["GET"] []
      NodeType.nodePrefixKind, [("GET", mkRoute "GET" "/p" 1)], rfl, rfl, rfl⟩

/-- C10: a non-empty path without a leading `/` that tokenizes to two or more
segments makes `registerRoute` panic with the improper-format error at
configuration time, binding nothing (the error aborts before any tree
update); a single-segment path without a leading `/` is accepted on a fresh
router. -/
theorem claim_C10 :
    (∀ (r : Router) (method path : String) (hid : Nat),
      path ≠ "" → headChar path ≠ some '/' → 2 ≤ (segmentPath path).length →
      registerRoute r method path hid =
        .error ("Improperly formatted route with method " ++ method ++
          " and path " ++ path)) ∧
    (∀ (A0 : Router) (pre0 : String) (t0 : NodeType) (method path : String) (hid : Nat),
      A0.rootNode = some (Node.mk pre0 none [] [] t0) →
      path ≠ "" → headChar path ≠ some '/' → (segmentPath path).length < 2 →
      isErr (registerRoute A0 method path hid) = false) := by
  constructor
  · intro r method path hid hne hsh hlen
    have h1 : ¬((path = "" ∨ headChar path ≠ some '/') ∧
        (segmentPath path).length < 2) := by
      rintro ⟨_, h⟩
      omega
    have h2 : headChar path ≠ some '/' ∧ (segmentPath path).length > 0 :=
      ⟨hsh, by omega⟩
    simp only [registerRoute, if_neg h1, if_pos h2]
  · intro A0 pre0 t0 method path hid hroot hne hsh hlen
    have h1 : (path = "" ∨ headChar path ≠ some '/') ∧ (segmentPath path).length < 2 :=
      ⟨Or.inr hsh, hlen⟩
    simp only [registerRoute, if_pos h1, hroot]
    rw [if_neg (by rintro ⟨h, _⟩; exact hne h)]
    have hfc : findChild (Node.mk pre0 none [] [] t0) path (determineNodeType path)
        = none := rfl
    rw [hfc]
    simp [addChild, hne, bind, Except.bind, addRouteToNode, isMethodTaken, newChildNode]

/-- C10 (witness): the two parts applied to `a/b` (rejected) and `users`
(accepted) on a fresh router. -/
theorem claim_C10_witness :
    registerRoute freshRouterA "GET" "a/b" 1 =
      .error ("Improperly formatted route with method " ++ "GET" ++
        " and path " ++ "a/b") ∧
    isErr (registerRoute freshRouterA "GET" "users" 2) = false :=
  ⟨claim_C10.1 freshRouterA "GET" "a/b" 1 (by decide) (by decide) (by decide),
   claim_C10.2 freshRouterA "a" NodeType.nodePrefixKind "GET" "users" 2 rfl
     (by decide) (by decide) (by decide)⟩
